import Mathlib

/-!
Shallow embedding of `pylifttk/normalizations.py` (unit-normalization
resolver): the normalization records, the graph construction, the
depth-first path search, the direct (forward/reverse) mapping
application, and the composed `normalize` operation.

Faithfulness notes, mirrored from the Python source:
* the graph-building loop in `_find_normalization_path` reassigns the
  function parameters `src`/`dst` to each record's `source`/`destination`,
  so after a non-empty loop the DFS starts from the LAST record's source
  and targets the last record's destination (modeled by `reassigned`);
* `dfs(start, end, path=None)` evaluates `path + [end]` BEFORE the
  `path is None` check, so a top-level call with `start == end` raises a
  `TypeError`; recursive calls always pass a list, so only the top-level
  call can raise (modeled by the `Except.error` branch of `findPathWith`);
* Python dicts preserve insertion order, so `mapping` and the adjacency
  dict are association lists; dict assignment replaces in place or
  appends (`dictSet`), `dict.get` returns the first (unique-key) match
  (`dictGet`, `mappingGet`);
* in `apply_direct_normalization` a forward match returns
  `mapping.get(word)` unconditionally, while a reverse match with no
  value hit falls through to the next record of the set;
* a `None` produced mid-chain is fed to the next hop as the word; no
  string key or value equals `None`, so `none` propagates (the word
  argument of `apply_direct_normalization` is `Option String`).
-/

namespace Normalizations

/-- One normalization record: `{source, destination, mapping}` with the
mapping an insertion-ordered dictionary of string tokens. -/
structure Normalization where
  source : String
  destination : String
  mapping : List (String × String)
deriving DecidableEq, Repr

/-- The configured sequence of normalization records. -/
abbrev NormalizationSet := List Normalization

/-- Python `graph.get(k, list())` over the adjacency dict. -/
def dictGet (g : List (String × List String)) (k : String) : List String :=
  match g.find? (fun p => p.1 == k) with
  | some p => p.2
  | none => []

/-- Python `graph[k] = v`: replace the value at an existing key in place,
otherwise append the new key at the end. -/
def dictSet (g : List (String × List String)) (k : String) (v : List String) :
    List (String × List String) :=
  match g with
  | [] => [(k, v)]
  | p :: rest => if p.1 = k then (k, v) :: rest else p :: dictSet rest k v

/-- One iteration of the graph-building loop of `_find_normalization_path`:
`graph[src] = graph.get(src, list()) + [dst]` and then
`graph[dst] = graph.get(dst, list()) + [src]`. -/
def addRecord (g : List (String × List String)) (n : Normalization) :
    List (String × List String) :=
  dictSet (dictSet g n.source (dictGet g n.source ++ [n.destination]))
    n.destination
    (dictGet (dictSet g n.source (dictGet g n.source ++ [n.destination]))
      n.destination ++ [n.source])

/-- The adjacency dict built by the loop, starting from the empty dict. -/
def buildGraph (ns : NormalizationSet) : List (String × List String) :=
  ns.foldl addRecord []

/-- The same loop also reassigns the parameters `src`/`dst` on every
iteration; for a non-empty set the values reaching the DFS are the last
record's source and destination, whatever the caller passed. -/
def reassigned (ns : NormalizationSet) (src dst : String) : String × String :=
  ns.foldl (fun _ n => (n.source, n.destination)) (src, dst)

/-- Python `for` loop returning the first non-`None` result, as in
`for p in possibilities: ... if ret_path is not None: return ret_path`. -/
def firstSome (f : α → Option β) : List α → Option β
  | [] => none
  | a :: l =>
    match f a with
    | some b => some b
    | none => firstSome f l

/-- The inner `dfs` of `_find_normalization_path` for the case where
`path` is an actual list (all recursive calls; the top-level call with
`path=None` is handled by `findPathWith`).  The `fuel` argument bounds
the recursion depth; `fuelFor` below always suffices (see the
stabilization theorem for claim C9). -/
def dfs (g : List (String × List String)) :
    Nat → String → String → List String → Option (List String)
  | 0, _, _, _ => none
  | fuel + 1, start, stop, path =>
    if start = stop then some (path ++ [stop])
    else if start ∈ path then none
    else firstSome (fun p => dfs g fuel p stop (path ++ [start])) (dictGet g start)

/-- Canonical fuel: the graph has at most `2 * ns.length` keys, and the
visited path never repeats a key, so this depth is never exhausted. -/
def fuelFor (ns : NormalizationSet) : Nat := 2 * ns.length + 1

/-- `_find_normalization_path` with an explicit fuel for the DFS.
`reassigned` reproduces the parameter shadowing of the graph loop; the
`Except.error` branch is the `TypeError` that `path + [end]` raises when
the top-level call has `start == end` (`path` is `None` there). -/
def findPathWith (ns : NormalizationSet) (fuel : Nat) (src dst : String) :
    Except String (Option (List String)) :=
  if (reassigned ns src dst).1 = (reassigned ns src dst).2 then
    Except.error "TypeError"
  else
    Except.ok
      (dfs (buildGraph ns) fuel (reassigned ns src dst).1
        (reassigned ns src dst).2 [])

/-- `_find_normalization_path(src, dst)` of the source. -/
def find_normalization_path (ns : NormalizationSet) (src dst : String) :
    Except String (Option (List String)) :=
  findPathWith ns (fuelFor ns) src dst

/-- Python `normalization["mapping"].get(word)`: first (unique) key match;
`dict.get(None)` is `None` since every key is a string. -/
def mappingGet (m : List (String × String)) (word : Option String) : Option String :=
  match word with
  | none => none
  | some w => (m.find? (fun p => p.1 == w)).map Prod.snd

/-- The reverse-lookup scan: first mapping entry whose value equals the
word, returning its key; `None` never equals a string value. -/
def reverseFind (m : List (String × String)) (word : Option String) : Option String :=
  match word with
  | none => none
  | some w => (m.find? (fun p => p.2 == w)).map Prod.fst

/-- `apply_direct_normalization(word, src, dst)`: scan the records in
order; a forward match returns `mapping.get(word)` unconditionally; a
reverse match returns the first key whose value equals the word, and
falls through to the remaining records when no value matches. -/
def apply_direct_normalization (ns : NormalizationSet) (word : Option String)
    (src dst : String) : Option String :=
  match ns with
  | [] => none
  | n :: rest =>
    if src = n.source ∧ dst = n.destination then
      mappingGet n.mapping word
    else if dst = n.source ∧ src = n.destination then
      match reverseFind n.mapping word with
      | some k => some k
      | none => apply_direct_normalization rest word src dst
    else apply_direct_normalization rest word src dst

/-- The pairwise walk of `normalize`: `result = word; for i in
range(len(path) - 1): result = apply_direct_normalization(result,
path[i], path[i+1])`. -/
def applyChain (ns : NormalizationSet) : Option String → List String → Option String
  | w, [] => w
  | w, [_] => w
  | w, a :: b :: rest =>
    applyChain ns (apply_direct_normalization ns w a b) (b :: rest)

/-- `normalize(word, src, dst, echo_word=False)` of the source: resolve
the path (propagating the `TypeError`), return absent when no path,
otherwise walk the path and apply the `echo_word` fallback. -/
def normalize (ns : NormalizationSet) (word src dst : String) (echo_word : Bool) :
    Except String (Option String) :=
  match find_normalization_path ns src dst with
  | Except.error e => Except.error e
  | Except.ok none => Except.ok none
  | Except.ok (some path) =>
    let result := applyChain ns (some word) path
    if result = none ∧ echo_word = true then Except.ok (some word)
    else Except.ok result

/-- The single `{F, C}` record of the spec's round-trip property. -/
def recFC : Normalization := ⟨"F", "C", [("32", "0"), ("212", "100")]⟩

/-- The `{C, K}` record of the spec's chained-conversion property. -/
def recCK : Normalization := ⟨"C", "K", [("0", "273")]⟩

/-- One-record set for the round-trip property. -/
def nsFC : NormalizationSet := [recFC]

/-- Two-record set for the chained-conversion property. -/
def nsFCK : NormalizationSet := [recFC, recCK]

/-- A self-loop record: `source` and `destination` are the same unit. -/
def recAA : Normalization := ⟨"A", "A", []⟩

/-- A set whose last record is a self-loop; the top-level DFS call then
has `start == end` with `path = None`, the `TypeError` configuration. -/
def nsSelfLoop : NormalizationSet := [recAA]

/-- First record of the reverse-fallthrough scenario for claim C6. -/
def recAB : Normalization := ⟨"A", "B", [("x", "y")]⟩

/-- Second record of that scenario, declaring the swapped pair. -/
def recBA : Normalization := ⟨"B", "A", [("q", "v")]⟩

/-- Two records over the same unit pair in opposite declaration order. -/
def nsRev : NormalizationSet := [recAB, recBA]

/-- A record whose mapping sends two keys to the same value. -/
def recUV : Normalization := ⟨"U", "V", [("a", "x"), ("b", "x")]⟩

/-- One-record set for the reverse-ambiguity property. -/
def nsAmbig : NormalizationSet := [recUV]

/-- A three-record set whose derived graph is the cycle A - B - C - A. -/
def nsCycle : NormalizationSet := [⟨"A", "B", []⟩, ⟨"B", "C", []⟩, ⟨"C", "A", []⟩]

/-- Unfolding lemma for one successor step of the fueled DFS. -/
theorem dfs_succ (g : List (String × List String)) (fuel : Nat)
    (start stop : String) (path : List String) :
    dfs g (fuel + 1) start stop path =
      if start = stop then some (path ++ [stop])
      else if start ∈ path then none
      else firstSome (fun p => dfs g fuel p stop (path ++ [start])) (dictGet g start) :=
  rfl

/-- `firstSome` only depends on the values of the function on the list. -/
theorem firstSome_congr {α β : Type} {f g : α → Option β} :
    ∀ {l : List α}, (∀ a ∈ l, f a = g a) → firstSome f l = firstSome g l := by
  intro l
  induction l with
  | nil => intro _; rfl
  | cons a l ih =>
    intro h
    have ha : f a = g a := h a (List.mem_cons_self a l)
    have hl : ∀ x ∈ l, f x = g x := fun x hx => h x (List.mem_cons_of_mem a hx)
    simp only [firstSome, ha]
    cases g a with
    | none => exact ih hl
    | some b => rfl

/-- A key that is absent from the dict has an empty adjacency list. -/
theorem dictGet_not_mem {g : List (String × List String)} {k : String}
    (h : k ∉ g.map Prod.fst) : dictGet g k = [] := by
  unfold dictGet
  have hf : g.find? (fun p => p.1 == k) = none := by
    rw [List.find?_eq_none]
    intro p hp
    simp only [beq_iff_eq]
    intro hc
    exact h (hc ▸ List.mem_map_of_mem Prod.fst hp)
  rw [hf]

/-- A duplicate-free list contained in another list is no longer than it. -/
theorem nodup_subset_length {l r : List String} (h : l.Nodup) (hs : l ⊆ r) :
    l.length ≤ r.length := by
  have h1 := List.toFinset_card_of_nodup h
  have h2 : l.toFinset ⊆ r.toFinset := by
    intro x hx
    rw [List.mem_toFinset] at hx ⊢
    exact hs hx
  have h3 := List.toFinset_card_le r
  have h4 := Finset.card_le_card h2
  omega

/-- The fueled DFS is stable: any two fuels large enough to cover the
remaining duplicate-free portion of the graph give identical results, so
the search terminates with a fuel-independent answer. -/
theorem dfs_stable (g : List (String × List String)) :
    ∀ (f1 f2 : Nat) (start stop : String) (path : List String),
      path.Nodup → (∀ x ∈ path, x ∈ g.map Prod.fst) →
      g.length + 1 ≤ f1 + path.length → g.length + 1 ≤ f2 + path.length →
      dfs g f1 start stop path = dfs g f2 start stop path := by
  intro f1
  induction f1 with
  | zero =>
    intro f2 start stop path hnd hmem h1 h2
    exfalso
    have hb := nodup_subset_length hnd hmem
    rw [List.length_map] at hb
    omega
  | succ n ih =>
    intro f2 start stop path hnd hmem h1 h2
    match f2 with
    | 0 =>
      exfalso
      have hb := nodup_subset_length hnd hmem
      rw [List.length_map] at hb
      omega
    | m + 1 =>
      rw [dfs_succ, dfs_succ]
      by_cases hs : start = stop
      · simp [hs]
      · simp only [if_neg hs]
        by_cases hp : start ∈ path
        · simp [hp]
        · simp only [if_neg hp]
          by_cases hk : start ∈ g.map Prod.fst
          · apply firstSome_congr
            intro p _
            have hnd' : (path ++ [start]).Nodup := by
              rw [List.nodup_append]
              refine ⟨hnd, List.nodup_singleton start, ?_⟩
              intro a ha hb
              rw [List.mem_singleton] at hb
              subst hb
              exact hp ha
            have hmem' : ∀ x ∈ path ++ [start], x ∈ g.map Prod.fst := by
              intro x hx
              rcases List.mem_append.mp hx with hx' | hx'
              · exact hmem x hx'
              · rw [List.mem_singleton] at hx'
                subst hx'
                exact hk
            have hlen : (path ++ [start]).length = path.length + 1 := by
              simp
            apply ih
            · exact hnd'
            · exact hmem'
            · omega
            · omega
          · rw [dictGet_not_mem hk]
            rfl

/-- Python dict assignment grows the dict by at most one entry. -/
theorem dictSet_length (g : List (String × List String)) (k : String)
    (v : List String) : (dictSet g k v).length ≤ g.length + 1 := by
  induction g with
  | nil => simp [dictSet]
  | cons p rest ih =>
    simp only [dictSet]
    by_cases h : p.1 = k
    · simp [h]
    · simp only [if_neg h, List.length_cons]
      omega

/-- Each record adds at most two entries (its two endpoints) to the dict. -/
theorem addRecord_length (g : List (String × List String)) (n : Normalization) :
    (addRecord g n).length ≤ g.length + 2 := by
  unfold addRecord
  have h1 := dictSet_length g n.source (dictGet g n.source ++ [n.destination])
  have h2 := dictSet_length
    (dictSet g n.source (dictGet g n.source ++ [n.destination])) n.destination
    (dictGet (dictSet g n.source (dictGet g n.source ++ [n.destination]))
      n.destination ++ [n.source])
  omega

/-- Folding the graph-building step over the set, from any dict. -/
theorem foldl_addRecord_length :
    ∀ (l : NormalizationSet) (g : List (String × List String)),
      (List.foldl addRecord g l).length ≤ g.length + 2 * l.length := by
  intro l
  induction l with
  | nil =>
    intro g
    simp
  | cons n rest ih =>
    intro g
    have h1 := ih (addRecord g n)
    have h2 := addRecord_length g n
    rw [List.foldl_cons, List.length_cons]
    omega

/-- The adjacency dict has at most two entries per record. -/
theorem buildGraph_length (ns : NormalizationSet) :
    (buildGraph ns).length ≤ 2 * ns.length := by
  have h := foldl_addRecord_length ns []
  simpa [buildGraph] using h

/-- For a non-empty set, the reassignment loop of
`_find_normalization_path` erases the caller's arguments entirely. -/
theorem reassigned_const (ns : NormalizationSet) (h : ns ≠ [])
    (a b c d : String) : reassigned ns a b = reassigned ns c d := by
  cases ns with
  | nil => exact absurd rfl h
  | cons n rest => simp [reassigned]

/-- C1: on the set containing only the F/C record, the forward direction
of the round trip holds, `normalize("32","F","C") = "0"`, but the reverse
direction fails: `normalize("0","C","F")` evaluates to absent, not `"32"`,
because the path search ignores its arguments and always resolves the
forward path `["F","C"]`. -/
theorem C1_roundtrip_eval :
    normalize nsFC "32" "F" "C" false = Except.ok (some "0") ∧
    normalize nsFC "0" "C" "F" false = Except.ok none :=
  ⟨rfl, rfl⟩

/-- C2: on the F/C and C/K records, the resolved path for the request
`("F","K")` is `["C","K"]` (the last record's endpoints), not
`["F","C","K"]`, and `normalize("32","F","K")` evaluates to absent, not
`"273"`. -/
theorem C2_chain_eval :
    find_normalization_path nsFCK "F" "K" = Except.ok (some ["C", "K"]) ∧
    normalize nsFCK "32" "F" "K" false = Except.ok none :=
  ⟨rfl, rfl⟩

/-- C3 counterexample: `"X"` and `"Y"` appear in no record of `nsFC`, yet
`find_path("X","Y")` returns the path `["F","C"]` instead of absent; and
in a genuine no-path situation (the empty set), `normalize` with
`echo_word = true` returns absent, not the original word `"w"`. -/
theorem C3_counterexample :
    find_normalization_path nsFC "X" "Y" = Except.ok (some ["F", "C"]) ∧
    normalize ([] : NormalizationSet) "w" "X" "Y" true = Except.ok none :=
  ⟨rfl, rfl⟩

/-- C3 amended: a no-path result only materializes when the set is empty
and the two unit names differ; in that case `find_path` returns absent
and `normalize` returns absent regardless of `echo_word`. -/
theorem C3_amended (word src dst : String) (echo : Bool) (h : src ≠ dst) :
    find_normalization_path ([] : NormalizationSet) src dst = Except.ok none ∧
    normalize ([] : NormalizationSet) word src dst echo = Except.ok none := by
  have hre : reassigned ([] : NormalizationSet) src dst = (src, dst) := rfl
  have hfp : find_normalization_path ([] : NormalizationSet) src dst =
      Except.ok none := by
    unfold find_normalization_path findPathWith
    rw [hre]
    simp only [if_neg h]
    rw [show fuelFor ([] : NormalizationSet) = 0 + 1 from rfl, dfs_succ]
    simp only [if_neg h, List.not_mem_nil, if_false]
    rfl
  refine ⟨hfp, ?_⟩
  unfold normalize
  rw [hfp]

/-- C3 witness: instantiating the amended statement at the empty set
with the disconnected pair `("X","Y")`, word `"w"` and `echo_word` set. -/
theorem C3_witness :
    find_normalization_path ([] : NormalizationSet) "X" "Y" = Except.ok none ∧
    normalize ([] : NormalizationSet) "w" "X" "Y" true = Except.ok none :=
  C3_amended "w" "X" "Y" true (by decide)

/-- C4 counterexample: `"F"` appears in a record of `nsFC`, yet
`find_path("F","F")` returns `["F","C"]`, not the single-node path
`["F"]`; and for the isolated name `"X"`, `find_path("X","X")` also
returns `["F","C"]`, which is neither a single-node path nor absent. -/
theorem C4_counterexample :
    find_normalization_path nsFC "F" "F" = Except.ok (some ["F", "C"]) ∧
    find_normalization_path nsFC "X" "X" = Except.ok (some ["F", "C"]) :=
  ⟨rfl, rfl⟩

/-- C4 amended: `find_path(a,a)` ignores its argument: on the one-record
set `nsFC` it returns the last record's DFS path `["F","C"]` for every
`a`, and on the empty set the top-level DFS call has `start == end` with
`path = None`, so it raises a `TypeError` instead of returning. -/
theorem C4_amended (a : String) :
    find_normalization_path nsFC a a = Except.ok (some ["F", "C"]) ∧
    find_normalization_path ([] : NormalizationSet) a a =
      Except.error "TypeError" := by
  refine ⟨rfl, ?_⟩
  have e : find_normalization_path ([] : NormalizationSet) a a =
      if a = a then Except.error "TypeError"
      else Except.ok (dfs (buildGraph []) (fuelFor []) a a []) := rfl
  rw [e, if_pos rfl]

/-- C4 witness: the amended statement instantiated at the unit `"Q"`. -/
theorem C4_witness :
    find_normalization_path nsFC "Q" "Q" = Except.ok (some ["F", "C"]) ∧
    find_normalization_path ([] : NormalizationSet) "Q" "Q" =
      Except.error "TypeError" :=
  C4_amended "Q"

/-- C5: the exception branch is reachable on well-formed input: when the
last record is the self-loop `{A, A}`, the top-level DFS call evaluates
`path + [end]` with `path = None` and raises a `TypeError` for every
argument triple; the empty set with equal `src`/`dst` raises likewise. -/
theorem C5_crash_eval :
    normalize nsSelfLoop "w" "X" "Y" false = Except.error "TypeError" ∧
    find_normalization_path ([] : NormalizationSet) "A" "A" =
      Except.error "TypeError" :=
  ⟨rfl, rfl⟩

/-- C6 counterexample: in `nsRev` the first record matching the pair
`("B","A")` is `recAB` (in the reverse direction), whose mapping has no
value `"q"`; the claim then demands an absent result, but the code falls
through and answers `"v"` from the later record `recBA`. -/
theorem C6_counterexample :
    apply_direct_normalization nsRev (some "q") "B" "A" = some "v" :=
  rfl

/-- C6 amended: a forward match on the first record always ends the scan
with `mapping.get(word)`; a reverse match ends the scan only when some
mapping value equals the word (returning its first key); a reverse match
with no value hit falls through to the remaining records. -/
theorem C6_amended (n : Normalization) (rest : NormalizationSet)
    (w : Option String) (src dst : String) :
    (src = n.source ∧ dst = n.destination →
      apply_direct_normalization (n :: rest) w src dst = mappingGet n.mapping w) ∧
    (¬(src = n.source ∧ dst = n.destination) →
      dst = n.source ∧ src = n.destination →
      ∀ k, reverseFind n.mapping w = some k →
        apply_direct_normalization (n :: rest) w src dst = some k) ∧
    (¬(src = n.source ∧ dst = n.destination) →
      dst = n.source ∧ src = n.destination →
      reverseFind n.mapping w = none →
      apply_direct_normalization (n :: rest) w src dst =
        apply_direct_normalization rest w src dst) := by
  have e : apply_direct_normalization (n :: rest) w src dst =
      if src = n.source ∧ dst = n.destination then
        mappingGet n.mapping w
      else if dst = n.source ∧ src = n.destination then
        match reverseFind n.mapping w with
        | some k => some k
        | none => apply_direct_normalization rest w src dst
      else apply_direct_normalization rest w src dst := rfl
  refine ⟨?_, ?_, ?_⟩
  · intro hf
    rw [e, if_pos hf]
  · intro hf hr k hk
    rw [e, if_neg hf, if_pos hr, hk]
  · intro hf hr hk
    rw [e, if_neg hf, if_pos hr, hk]

/-- C6 witness: on `nsRev`, the fall-through clause reduces the scan to
the tail `[recBA]`, and the forward clause then answers from `recBA`. -/
theorem C6_witness :
    apply_direct_normalization nsRev (some "q") "B" "A" =
      apply_direct_normalization [recBA] (some "q") "B" "A" ∧
    apply_direct_normalization [recBA] (some "q") "B" "A" =
      mappingGet recBA.mapping (some "q") :=
  ⟨(C6_amended recAB [recBA] (some "q") "B" "A").2.2 (by decide) (by decide) rfl,
    (C6_amended recBA [] (some "q") "B" "A").1 (by decide)⟩

/-- C7: echo semantics of `normalize`: a no-path result yields absent
whatever `echo_word` is; a found path whose walk ends absent yields the
original word exactly when `echo_word` is true, and absent when it is
false; a walk that ends with a token yields that token. -/
theorem C7_echo_semantics (ns : NormalizationSet) (word src dst : String)
    (echo : Bool) :
    (find_normalization_path ns src dst = Except.ok none →
      normalize ns word src dst echo = Except.ok none) ∧
    (∀ p, find_normalization_path ns src dst = Except.ok (some p) →
      applyChain ns (some word) p = none → echo = true →
      normalize ns word src dst echo = Except.ok (some word)) ∧
    (∀ p r, find_normalization_path ns src dst = Except.ok (some p) →
      applyChain ns (some word) p = some r →
      normalize ns word src dst echo = Except.ok (some r)) ∧
    (∀ p, find_normalization_path ns src dst = Except.ok (some p) →
      applyChain ns (some word) p = none → echo = false →
      normalize ns word src dst echo = Except.ok none) := by
  refine ⟨?_, ?_, ?_, ?_⟩
  · intro h
    unfold normalize
    rw [h]
  · intro p hp hc he
    subst he
    unfold normalize
    rw [hp]
    simp [hc]
  · intro p r hp hc
    unfold normalize
    rw [hp]
    simp [hc]
  · intro p hp hc he
    subst he
    unfold normalize
    rw [hp]
    simp [hc]

/-- C7 witness: on `nsFCK` the path `["C","K"]` is found, the walk on
`"32"` fails, and with `echo_word = true` the original word comes back. -/
theorem C7_witness :
    normalize nsFCK "32" "F" "K" true = Except.ok (some "32") :=
  (C7_echo_semantics nsFCK "32" "F" "K" true).2.1 ["C", "K"] rfl rfl rfl

/-- C8: with the mapping `[("a","x"),("b","x")]` declared from U to V, a
request in the opposite direction (`src = "V"`, `dst = "U"`) for the
token `"x"` deterministically returns the first declared key `"a"`. -/
theorem C8_reverse_first_match :
    apply_direct_normalization nsAmbig (some "x") "V" "U" = some "a" :=
  rfl

/-- C9: the DFS terminates: with the canonical fuel the search result is
already stable, so `find_path` computed with any larger recursion budget
equals the canonical value, on every set, cyclic graphs included. -/
theorem C9_dfs_terminates (ns : NormalizationSet) (src dst : String)
    (fuel : Nat) (h : fuelFor ns ≤ fuel) :
    findPathWith ns fuel src dst = find_normalization_path ns src dst := by
  unfold find_normalization_path findPathWith
  by_cases hst : (reassigned ns src dst).1 = (reassigned ns src dst).2
  · rw [if_pos hst, if_pos hst]
  · rw [if_neg hst, if_neg hst]
    have hg := buildGraph_length ns
    have hfuel : fuelFor ns = 2 * ns.length + 1 := rfl
    congr 1
    apply dfs_stable
    · exact List.nodup_nil
    · intro x hx
      exact absurd hx (List.not_mem_nil x)
    · simp only [List.length_nil]
      omega
    · simp only [List.length_nil]
      omega

/-- C9 witness: on the cyclic three-record set, a fuel of 12 exceeds the
canonical budget and the stabilized search agrees with `find_path`. -/
theorem C9_witness :
    fuelFor nsCycle ≤ 12 ∧
    findPathWith nsCycle 12 "A" "C" = find_normalization_path nsCycle "A" "C" :=
  ⟨by decide, C9_dfs_terminates nsCycle "A" "C" 12 (by decide)⟩

/-- C10: for every non-empty set, `find_path` is independent of both of
its arguments: the graph loop reassigns `src`/`dst` to each record's
endpoints, so the DFS always runs from the last record's source to the
last record's destination. -/
theorem C10_args_ignored (ns : NormalizationSet) (h : ns ≠ [])
    (s1 d1 s2 d2 : String) :
    find_normalization_path ns s1 d1 = find_normalization_path ns s2 d2 := by
  unfold find_normalization_path findPathWith
  rw [reassigned_const ns h s1 d1 s2 d2]

/-- C10 witness: on the non-empty set `nsFC`, the disconnected pair
`("X","Y")` and the reverse pair `("C","F")` get the same answer. -/
theorem C10_witness :
    nsFC ≠ ([] : NormalizationSet) ∧
    find_normalization_path nsFC "X" "Y" = find_normalization_path nsFC "C" "F" :=
  ⟨by decide, C10_args_ignored nsFC (by decide) "X" "Y" "C" "F"⟩

end Normalizations
